import Mathlib

/-!
Verification model of `MyRouge155.py` (pyrouge_for_windows).

Directories are modelled as the list of filenames returned by
`os.listdir` (unsorted).  The Python `re` patterns used by the program
are modelled by a small regex datatype covering exactly the constructs
the program relies on: literal characters, the single-character
wildcard `.` (which does not match a newline), character classes,
the shorthands for digits, word characters and non-space characters,
one-or-more repetition of a single-character class (greedy, with
backtracking), capturing groups, and the end anchor.  `re.match`
semantics are used throughout: the match is anchored at the start of
the string and trailing characters are permitted unless the pattern
ends with the end anchor.
-/

namespace MyRouge155

/-- A single-character matcher, as used inside the program's patterns. -/
inductive CharClass where
  | any
  | digit
  | word
  | nonspace
  | lit (c : Char)
  | range (lo hi : Char)
deriving DecidableEq

/-- Whether a character belongs to a character class.  `any` models the
Python wildcard (everything except a newline); `digit`, `word` and
`nonspace` model the ASCII readings of the escapes used by the Python 2
source. -/
def CharClass.test : CharClass → Char → Bool
  | .any, c => c != '\n'
  | .digit, c => c.isDigit
  | .word, c => c.isAlphanum || c == '_'
  | .nonspace, c => !c.isWhitespace
  | .lit a, c => c == a
  | .range lo hi, c => decide (lo ≤ c) && decide (c ≤ hi)

/-- The regex constructs used by `MyRouge155.py`. -/
inductive Regex where
  | emp
  | cl (c : CharClass)
  | seq (a b : Regex)
  | plus (c : CharClass)
  | group (a : Regex)
  | eol
deriving DecidableEq

/-- The concatenation of literal characters denoted by a plain string. -/
def Regex.lits (s : String) : Regex :=
  s.data.foldr (fun c r => .seq (.cl (.lit c)) r) .emp

/-- Greedy backtracking for one-or-more repetition of a character class:
the lengths `n, n-1, …, 1` are tried in that order (the caller passes as
`n` the length of the maximal run of class characters, so every tried
length consists of class characters only). -/
def greedyFrom (k : List Char → List String → Option (List String))
    (caps : List String) (s : List Char) : Nat → Option (List String)
  | 0 => none
  | n + 1 =>
    match k (s.drop (n + 1)) caps with
    | some r => some r
    | none => greedyFrom k caps s n

/-- The text consumed between a state with remaining input `s` and a
later state with remaining input `s2` (used to record a group's capture). -/
def consumed (s s2 : List Char) : String :=
  String.mk (s.take (s.length - s2.length))

/-- Backtracking matcher in continuation-passing style.  `k` receives the
remaining input and the captures recorded so far; captures are appended
when the corresponding group closes, so for the non-nested groups used by
the program the capture list is in left-to-right group order. -/
def mrun (r : Regex) (s : List Char)
    (k : List Char → List String → Option (List String))
    (caps : List String) : Option (List String) :=
  match r with
  | .emp => k s caps
  | .cl c =>
    match s with
    | [] => none
    | ch :: rest => if c.test ch then k rest caps else none
  | .seq a b => mrun a s (fun s2 c2 => mrun b s2 k c2) caps
  | .plus c => greedyFrom k caps s (s.takeWhile c.test).length
  | .group a => mrun a s (fun s2 c2 => k s2 (c2 ++ [consumed s s2])) caps
  | .eol => if s.isEmpty then k s caps else none

/-- `re.match`: anchored at the start, trailing characters permitted;
returns the list of group captures on success. -/
def rmatch (r : Regex) (s : String) : Option (List String) :=
  mrun r s.data (fun _ caps => some caps) []

/-- A full-string match: anchored at the start and required to consume
the whole input. -/
def rmatchFull (r : Regex) (s : String) : Option (List String) :=
  mrun r s.data (fun rest caps => if rest.isEmpty then some caps else none) []

/-- Whether a regex contains the end anchor. -/
def Regex.eolFree : Regex → Bool
  | .emp => true
  | .cl _ => true
  | .seq a b => a.eolFree && b.eolFree
  | .plus _ => true
  | .group a => a.eolFree
  | .eol => false

/-- A model-filename pattern: a regex with `hole` marking each occurrence
of the `#ID#` placeholder. -/
inductive PRegex where
  | emp
  | cl (c : CharClass)
  | seq (a b : PRegex)
  | plus (c : CharClass)
  | group (a : PRegex)
  | eol
  | hole
deriving DecidableEq

/-- Literal characters as a placeholder pattern. -/
def PRegex.lits (s : String) : PRegex :=
  s.data.foldr (fun c r => .seq (.cl (.lit c)) r) .emp

/-- `model_filenames_pattern.replace('#ID#', id)`: substitute the
identifier for every occurrence of the placeholder, yielding the regex
that is compiled and matched against the model directory listing. -/
def PRegex.subst : PRegex → String → Regex
  | .emp, _ => .emp
  | .cl c, _ => .cl c
  | .seq a b, id => .seq (a.subst id) (b.subst id)
  | .plus c, _ => .plus c
  | .group a, id => .group (a.subst id)
  | .eol, _ => .eol
  | .hole, id => Regex.lits id

/-- Python string comparison: lexicographic on code points. -/
def charListLe : List Char → List Char → Bool
  | [], _ => true
  | _ :: _, [] => false
  | a :: as, b :: bs =>
    if a.toNat < b.toNat then true
    else if b.toNat < a.toNat then false
    else charListLe as bs

/-- `a <= b` on Python strings. -/
def pyLe (a b : String) : Bool := charListLe a.data b.data

/-- Stable insertion of a string into a sorted list (auxiliary to
`pySort`). -/
def insertStr (a : String) : List String → List String
  | [] => [a]
  | b :: bs => if pyLe a b then a :: b :: bs else b :: insertStr a bs

/-- Python `sorted` on a list of strings. -/
def pySort (l : List String) : List String := l.foldr insertStr []

/-- Python `str.split()` (no separator): split on runs of whitespace,
discarding empty pieces.  Auxiliary accumulator-based worker. -/
def pySplitAux : List Char → List Char → List String
  | [], acc => if acc.isEmpty then [] else [String.mk acc.reverse]
  | c :: cs, acc =>
    if c.isWhitespace then
      if acc.isEmpty then pySplitAux cs [] else String.mk acc.reverse :: pySplitAux cs []
    else pySplitAux cs (c :: acc)

/-- Python `str.split()` with no argument. -/
def pySplit (s : String) : List String := pySplitAux s.data []

/-- Python `output.split("\n")`: split on each newline, keeping empty
pieces. -/
def splitLinesAux : List Char → List Char → List String
  | [], acc => [String.mk acc.reverse]
  | c :: cs, acc =>
    if c = '\n' then String.mk acc.reverse :: splitLinesAux cs []
    else splitLinesAux cs (c :: acc)

/-- Split a string into its newline-separated lines, Python style. -/
def pySplitLines (s : String) : List String := splitLinesAux s.data []

/-- Python `str.lower()` (the metric names involved are ASCII). -/
def pyLower (s : String) : String := String.mk (s.data.map Char.toLower)

/-- Python `str.replace("-", "_")`: a single-character replacement is a
character map. -/
def dashToUnderscore (s : String) : String :=
  String.mk (s.data.map (fun c => if c = '-' then '_' else c))

/-- The errors the program can raise on the modelled paths.  The Python
source raises plain `Exception`s; the constructors record the data
interpolated into each exception message (`missingReferences` carries the
identifier and the configured model-filename pattern, `noCandidates` the
system pattern and the system directory).  `indexError` models the
`IndexError` of an out-of-range list subscript and `keyError` the
`KeyError` of a failed dictionary lookup. -/
inductive RougeError where
  | missingReferences (id : String) (pat : PRegex)
  | noCandidates (pat : Regex) (dir : String)
  | indexError
  | keyError
deriving DecidableEq

/-- `__get_model_filenames_for_id(id, model_dir, model_filenames_pattern)`:
substitute the identifier for `#ID#`, keep the filenames of the model
directory listing accepted by `re.match` with the compiled result (in
listing order), and raise if none matched. -/
def getModelFilenamesForId (id : String) (modelListing : List String)
    (modelPat : PRegex) : Except RougeError (List String) :=
  let pattern := modelPat.subst id
  let modelFilenames := modelListing.filter (fun f => (rmatch pattern f).isSome)
  if modelFilenames.isEmpty then
    Except.error (.missingReferences id modelPat)
  else
    Except.ok modelFilenames

/-- The matching loop of `write_config_static` (lines 261-272): iterate
over the sorted system directory listing, keep the files accepted by
`re.match` with the system pattern, and pair each with its first capturing
group (`match.groups(0)[0]`; every pattern the program is used with has a
capturing group, so the default is never consulted). -/
def matchCandidates (listing : List String) (pat : Regex) : List (String × String) :=
  (pySort listing).filterMap
    (fun f => (rmatch pat f).map (fun caps => (caps.getD 0 "", f)))

/-- One candidate entry of the multi-variant resolver: the Python list
`[id, system_id, system_filename]` built in `ProduceSysModPair`. -/
structure Entry where
  id : String
  sysId : String
  fname : String
deriving DecidableEq

instance : Inhabited Entry := ⟨⟨"", "", ""⟩⟩

/-- `system_filename_pattern + '.' + eachdir + '$'` compiled: the base
pattern followed by the single-character wildcard, the variant label as
literals, and the end anchor. -/
def variantPattern (p : Regex) (label : String) : Regex :=
  .seq p (.seq (.cl .any) (.seq (Regex.lits label) .eol))

/-- The per-variant matching loop of `ProduceSysModPair`: iterate over
the sorted system directory listing and collect `[id, label, filename]`
for each filename accepted by the variant pattern. -/
def variantEntries (sysPat : Regex) (listing : List String) (label : String) :
    List Entry :=
  (pySort listing).filterMap
    (fun f => (rmatch (variantPattern sysPat label) f).map
      (fun caps => ⟨caps.getD 0 "", label, f⟩))

/-- One task of the multi-variant flow: the Python pair
`[system_id_set, model_file_set]`. -/
abbrev SysModPair := List Entry × List String

/-- The inner loop of `ProduceSysModPair` collecting
`eachsystemset[i]` for every variant list: an out-of-range subscript is
an `IndexError`. -/
def peersAt (lists : List (List Entry)) (i : Nat) : Except RougeError (List Entry) :=
  match lists with
  | [] => Except.ok []
  | lst :: rest =>
    match lst.get? i with
    | some e =>
      match peersAt rest i with
      | Except.error err => Except.error err
      | Except.ok ps => Except.ok (e :: ps)
    | none => Except.error .indexError

/-- The outer loop of `ProduceSysModPair`: walk the first variant's
candidate list with the running index `i`, resolve the model files from
the first variant's identifier, then gather the position-`i` entry of
every variant list. -/
def zipTasks (lists : List (List Entry)) (modelListing : List String)
    (modelPat : PRegex) : Nat → List Entry → Except RougeError (List SysModPair)
  | _, [] => Except.ok []
  | i, e :: es =>
    match getModelFilenamesForId e.id modelListing modelPat with
    | Except.error err => Except.error err
    | Except.ok models =>
      match peersAt lists i with
      | Except.error err => Except.error err
      | Except.ok peers =>
        match zipTasks lists modelListing modelPat (i + 1) es with
        | Except.error err => Except.error err
        | Except.ok rest => Except.ok ((peers, models) :: rest)

/-- `ProduceSysModPair`: build one variant candidate list per label, then
zip them positionally, driven by the first variant's list
(`all_id_system_file[0]`; with an empty label list that subscript is an
`IndexError`). -/
def ProduceSysModPair (systemListing modelListing : List String)
    (systemIdset : List String) (modelPat : PRegex) (sysPat : Regex) :
    Except RougeError (List SysModPair) :=
  let allLists := systemIdset.map (variantEntries sysPat systemListing)
  match allLists with
  | [] => Except.error .indexError
  | first :: rest => zipTasks (first :: rest) modelListing modelPat 0 first

/-- Pair each list element with a counter starting at `n` (Python
`enumerate(xs, start=n)`). -/
def enumFrom {α : Type} : Nat → List α → List (Nat × α)
  | _, [] => []
  | n, a :: as => (n, a) :: enumFrom (n + 1) as

/-- `"sep".join(xs)`. -/
def joinSep (sep : String) : List String → String
  | [] => ""
  | [a] => a
  | a :: b :: as => a ++ sep ++ joinSep sep (b :: as)

/-- The model entries of `__get_eval_string` / `__get_eval_stringA`: one
`<M>` element per model filename in input order, the ID attribute being
`chr(65 + i)` for position `i`. -/
def modelElems (names : List String) : List String :=
  (enumFrom 0 names).map
    (fun p => "<M ID=\"" ++ (Char.ofNat (65 + p.1)).toString ++ "\">" ++ p.2 ++ "</M>")

/-- The peer block of `__get_eval_stringA`: one `<P>` element per entry,
its ID attribute the entry's variant label (`eachpeer[1]`), its body the
filename (`eachpeer[2]`), accumulated left to right. -/
def peerElemsA (systemFilenames : List Entry) : String :=
  systemFilenames.foldl
    (fun acc e => acc ++ "<P ID=\"" ++ e.sysId ++ "\">" ++ e.fname ++ "</P>\n\t\t\t") ""

/-- The fixed `<EVAL>` template shared by `__get_eval_string` and
`__get_eval_stringA`, with the peer block and model block filled in. -/
def evalTemplate (taskId : Nat) (systemDir modelDir peerElems modelBlock : String) :
    String :=
  "\n    <EVAL ID=\"" ++ toString taskId ++ "\">\n        <MODEL-ROOT>"
    ++ modelDir ++ "</MODEL-ROOT>\n        <PEER-ROOT>"
    ++ systemDir ++ "</PEER-ROOT>\n        <INPUT-FORMAT TYPE=\"SEE\">\n        </INPUT-FORMAT>\n        <PEERS>\n            "
    ++ peerElems ++ "\n        </PEERS>\n        <MODELS>\n            "
    ++ modelBlock ++ "\n        </MODELS>\n    </EVAL>\n"

/-- `__get_eval_stringA`.  The `systemId` argument of the Python function
is rebound inside the peer loop before any use, so it does not influence
the output. -/
def getEvalStringA (taskId : Nat) (systemId : List String)
    (systemDir : String) (systemFilenames : List Entry)
    (modelDir : String) (modelFilenames : List String) : String :=
  let _ := systemId
  evalTemplate taskId systemDir modelDir (peerElemsA systemFilenames)
    (joinSep "\n\t\t\t" (modelElems modelFilenames))

/-- `__get_eval_string` (single-variant flow): one peer element whose ID
attribute is the supplied system id. -/
def getEvalString (taskId : Nat) (systemId : String)
    (systemDir systemFilename : String)
    (modelDir : String) (modelFilenames : List String) : String :=
  evalTemplate taskId systemDir modelDir
    ("<P ID=\"" ++ systemId ++ "\">" ++ systemFilename ++ "</P>")
    (joinSep "\n\t\t\t" (modelElems modelFilenames))

/-- The document-writing loop of `write_config_staticA`: emit the eval
string of each task, numbering them with `enumerate(sys_mod, start=1)`. -/
def renderTasksA (systemId : List String) (systemDir modelDir : String) :
    Nat → List SysModPair → String
  | _, [] => ""
  | tid, (sfs, mfs) :: rest =>
    getEvalStringA tid systemId systemDir sfs modelDir mfs
      ++ renderTasksA systemId systemDir modelDir (tid + 1) rest

/-- The configuration document `write_config_staticA` writes for a given
task list: root element, eval strings numbered from 1, closing tag. -/
def renderConfigA (systemId : List String) (systemDir modelDir : String)
    (sysMod : List SysModPair) : String :=
  "<ROUGE-EVAL version=\"1.55\">" ++ renderTasksA systemId systemDir modelDir 1 sysMod
    ++ "</ROUGE-EVAL>"

/-- `write_config_staticA`: resolve the system/model association via
`ProduceSysModPair` (any exception propagates and no document is
produced), then write the document.  The result is the full text of the
written configuration file. -/
def writeConfigStaticA (systemDir : String) (systemListing : List String)
    (sysPat : Regex) (modelDir : String) (modelListing : List String)
    (modelPat : PRegex) (systemIdset : List String) :
    Except RougeError String :=
  match ProduceSysModPair systemListing modelListing systemIdset modelPat sysPat with
  | Except.error err => Except.error err
  | Except.ok sysMod => Except.ok (renderConfigA systemIdset systemDir modelDir sysMod)

/-- The candidate loop of `write_config_static`: walk the sorted system
listing, and for each filename accepted by the system pattern resolve the
model filenames of its first capturing group (exceptions propagate),
collecting `(system_filename, sorted(model_filenames))`. -/
def buildTuples (sysPat : Regex) (modelListing : List String) (modelPat : PRegex) :
    List String → Except RougeError (List (String × List String))
  | [] => Except.ok []
  | f :: fs =>
    match rmatch sysPat f with
    | some caps =>
      match getModelFilenamesForId (caps.getD 0 "") modelListing modelPat with
      | Except.error err => Except.error err
      | Except.ok models =>
        match buildTuples sysPat modelListing modelPat fs with
        | Except.error err => Except.error err
        | Except.ok rest => Except.ok ((f, pySort models) :: rest)
    | none => buildTuples sysPat modelListing modelPat fs

/-- The document-writing loop of `write_config_static`. -/
def renderTasks (systemId : String) (systemDir modelDir : String) :
    Nat → List (String × List String) → String
  | _, [] => ""
  | tid, (sf, mfs) :: rest =>
    getEvalString tid systemId systemDir sf modelDir mfs
      ++ renderTasks systemId systemDir modelDir (tid + 1) rest

/-- `write_config_static`: build the candidate/model tuples, raise if no
file matched the system pattern (before any document is written), then
write the document. -/
def writeConfigStatic (systemDir : String) (systemListing : List String)
    (sysPat : Regex) (modelDir : String) (modelListing : List String)
    (modelPat : PRegex) (systemId : String) : Except RougeError String :=
  match buildTuples sysPat modelListing modelPat (pySort systemListing) with
  | Except.error err => Except.error err
  | Except.ok tuples =>
    if tuples.isEmpty then Except.error (.noCandidates sysPat systemDir)
    else
      Except.ok ("<ROUGE-EVAL version=\"1.55\">"
        ++ renderTasks systemId systemDir modelDir 1 tuples ++ "</ROUGE-EVAL>")

/-- `__clean_rouge_args`: `None` and the empty string are passed through
as "no arguments"; otherwise one pair of enclosing double quotes is
stripped via `re.match('"(.+)"', ...)` (group 1 on success, the string
unchanged otherwise). -/
def quotMarkPattern : Regex :=
  .seq (.cl (.lit '"')) (.seq (.group (.plus .any)) (.cl (.lit '"')))

/-- `__clean_rouge_args(rouge_args)`. -/
def cleanRougeArgs (rougeArgs : Option String) : Option String :=
  match rougeArgs with
  | none => none
  | some s =>
    if s = "" then none
    else
      match rmatch quotMarkPattern s with
      | some caps => some (caps.getD 0 "")
      | none => some s

/-- Python truthiness of an optional string (`None` and `""` are falsy). -/
def strTruthy : Option String → Bool
  | none => false
  | some s => s != ""

/-- The default ROUGE options of `__get_options` after `list(map(str,...))`:
data directory, confidence level 95, `-U`, 1000 bootstrap resamples,
n-gram order 4, and the "take highest score" flag `-a`. -/
def defaultOptions (dataDir : String) : List String :=
  ["-e", dataDir, "-c", "95", "-U", "-r", "1000", "-n", "4", "-a"]

/-- `__add_config_option(options)`: append `-m` and the configuration
file path. -/
def addConfigOption (options : List String) (configFile : String) : List String :=
  options ++ ["-m"] ++ [configFile]

/-- `__get_options(rouge_args)`: constructor-time arguments
(`self.args`) win, then the per-call arguments, then the defaults; the
`-m <config>` pair is appended in every case. -/
def getOptions (selfArgs rougeArgs : Option String) (dataDir configFile : String) :
    List String :=
  let options :=
    if strTruthy selfArgs then pySplit (selfArgs.getD "")
    else if strTruthy rougeArgs then pySplit (rougeArgs.getD "")
    else defaultOptions dataDir
  addConfigOption options configFile

/-- The command vector built by `evaluate`:
`[PerlPath] + [self._bin_path] + options`. -/
def evaluateCommand (perlPath binPath : String) (selfArgs rougeArgs : Option String)
    (dataDir configFile : String) : List String :=
  [perlPath] ++ [binPath] ++ getOptions selfArgs rougeArgs dataDir configFile

/-- The fixed report pattern of `output_to_dict`:
`(\d+) (ROUGE-\S+) (Average_\w): (\d.\d+) \(95%-conf.int. (\d.\d+) - (\d.\d+)\)`
(the unescaped dots are the single-character wildcard, exactly as in the
source). -/
def outputPattern : Regex :=
  .seq (.group (.plus .digit))
    (.seq (.cl (.lit ' '))
      (.seq (.group (.seq (Regex.lits "ROUGE-") (.plus .nonspace)))
        (.seq (.cl (.lit ' '))
          (.seq (.group (.seq (Regex.lits "Average_") (.cl .word)))
            (.seq (Regex.lits ": ")
              (.seq (.group (.seq (.cl .digit) (.seq (.cl .any) (.plus .digit))))
                (.seq (Regex.lits " (95%-conf")
                  (.seq (.cl .any)
                    (.seq (Regex.lits "int")
                      (.seq (.cl .any)
                        (.seq (.cl (.lit ' '))
                          (.seq (.group (.seq (.cl .digit) (.seq (.cl .any) (.plus .digit))))
                            (.seq (Regex.lits " - ")
                              (.seq (.group (.seq (.cl .digit) (.seq (.cl .any) (.plus .digit))))
                                (.cl (.lit ')'))))))))))))))))

/-- The measure dictionary of `output_to_dict`; any other measure text is
a `KeyError`. -/
def measureName : String → Except RougeError String
  | "Average_R" => Except.ok "recall"
  | "Average_P" => Except.ok "precision"
  | "Average_F" => Except.ok "f_score"
  | _ => Except.error .keyError

/-- The per-line body of the `output_to_dict` loop: a non-matching line
contributes nothing; a matching line contributes the value and the two
confidence bounds under `{metric}_{measure}`, `…_cb`, `…_ce`.  The
matched values are kept as their captured text (Python converts them with
`float`, which is injective on the decimal texts compared here). -/
def lineEntries (line : String) : Except RougeError (List (String × String)) :=
  match rmatch outputPattern line with
  | none => Except.ok []
  | some caps =>
    match measureName (caps.getD 2 "") with
    | Except.error err => Except.error err
    | Except.ok measure =>
      let rougeType := dashToUnderscore (pyLower (caps.getD 1 ""))
      let key := rougeType ++ "_" ++ measure
      Except.ok [(key, caps.getD 3 ""), (key ++ "_cb", caps.getD 4 ""),
                 (key ++ "_ce", caps.getD 5 "")]

/-- The line loop of `output_to_dict`, accumulating entries in line
order (a repeated key would be shadowed by its later entry, mirroring the
dictionary assignment). -/
def outputLines : List String → Except RougeError (List (String × String))
  | [] => Except.ok []
  | line :: rest =>
    match lineEntries line with
    | Except.error err => Except.error err
    | Except.ok es =>
      match outputLines rest with
      | Except.error err => Except.error err
      | Except.ok rs => Except.ok (es ++ rs)

/-- `output_to_dict(output)`. -/
def outputToDict (output : String) : Except RougeError (List (String × String)) :=
  outputLines (pySplitLines output)

/-- Concatenation of a list of strings. -/
def strConcat : List String → String
  | [] => ""
  | a :: as => a ++ strConcat as

/-- Example system pattern in the style the program documents:
`s(\d+)` — a literal followed by one capturing group of digits. -/
def sysPatEx : Regex := .seq (Regex.lits "s") (.group (.plus .digit))

/-- Example model pattern `m#ID#`. -/
def modelPatEx : PRegex := .seq (PRegex.lits "m") .hole

/-- Example model pattern `m.#ID#` (wildcard before the placeholder). -/
def modelPatWild : PRegex := .seq (PRegex.lits "m") (.seq (.cl .any) .hole)

/-! ## Helper lemmas -/

theorem buildTuples_eq_nil (sysPat : Regex) (mL : List String) (mP : PRegex) :
    ∀ L : List String, (∀ f ∈ L, rmatch sysPat f = none) →
    buildTuples sysPat mL mP L = Except.ok [] := by
  intro L
  induction L with
  | nil => intro _; rfl
  | cons f fs ih =>
    intro h
    have hf : rmatch sysPat f = none := h f (by simp)
    have hfs : ∀ g ∈ fs, rmatch sysPat g = none := fun g hg => h g (by simp [hg])
    simp only [buildTuples, hf]
    exact ih hfs

theorem renderTasksA_eq_join (systemId : List String) (sysDir modDir : String) :
    ∀ (ts : List SysModPair) (n : Nat),
    renderTasksA systemId sysDir modDir n ts
      = strConcat ((enumFrom n ts).map
          (fun p => getEvalStringA p.1 systemId sysDir p.2.1 modDir p.2.2)) := by
  intro ts
  induction ts with
  | nil => intro n; rfl
  | cons t ts ih =>
    intro n
    obtain ⟨sfs, mfs⟩ := t
    simp only [renderTasksA, enumFrom, List.map, strConcat, ih (n + 1)]

theorem modelElems_getD_aux :
    ∀ (names : List String) (k i : Nat), i < names.length →
    ((enumFrom k names).map
        (fun p => "<M ID=\"" ++ (Char.ofNat (65 + p.1)).toString ++ "\">" ++ p.2 ++ "</M>")).getD i ""
      = "<M ID=\"" ++ (Char.ofNat (65 + (k + i))).toString ++ "\">" ++ names.getD i "" ++ "</M>" := by
  intro names
  induction names with
  | nil => intro k i h; simp at h
  | cons a as ih =>
    intro k i h
    cases i with
    | zero => simp [enumFrom]
    | succ i =>
      have h' : i < as.length := by simpa using h
      have hk : k + 1 + i = k + (i + 1) := by omega
      simpa [enumFrom, hk] using ih (k + 1) i h'

theorem enumFrom_length {α : Type} : ∀ (l : List α) (n : Nat),
    (enumFrom n l).length = l.length := by
  intro l
  induction l with
  | nil => intro n; rfl
  | cons a as ih => intro n; simp [enumFrom, ih (n + 1)]

theorem mem_insertStr : ∀ (l : List String) (a x : String),
    x ∈ insertStr a l ↔ x = a ∨ x ∈ l := by
  intro l a x
  induction l with
  | nil => simp [insertStr]
  | cons b bs ih =>
    by_cases h : pyLe a b = true
    · simp [insertStr, h]
    · simp only [insertStr, h]
      simp only [Bool.false_eq_true, if_false, List.mem_cons, ih]
      tauto

theorem mem_pySort : ∀ (l : List String) (x : String), x ∈ pySort l ↔ x ∈ l := by
  intro l x
  induction l with
  | nil => simp [pySort]
  | cons a as ih =>
    show x ∈ insertStr a (pySort as) ↔ _
    rw [mem_insertStr]
    simp [ih]

theorem charListLe_total : ∀ as bs : List Char,
    charListLe as bs = true ∨ charListLe bs as = true := by
  intro as
  induction as with
  | nil => intro bs; left; rfl
  | cons a as ih =>
    intro bs
    cases bs with
    | nil => right; rfl
    | cons b bs =>
      by_cases hab : a.toNat < b.toNat
      · left; simp [charListLe, hab]
      · by_cases hba : b.toNat < a.toNat
        · right; simp [charListLe, hba]
        · rcases ih bs with h | h
          · left; simp [charListLe, hab, hba, h]
          · right; simp [charListLe, hab, hba, h]

theorem charListLe_trans : ∀ as bs cs : List Char,
    charListLe as bs = true → charListLe bs cs = true → charListLe as cs = true := by
  intro as
  induction as with
  | nil => intro bs cs _ _; rfl
  | cons a as ih =>
    intro bs cs hab hbc
    cases bs with
    | nil => simp [charListLe] at hab
    | cons b bs =>
      cases cs with
      | nil => simp [charListLe] at hbc
      | cons c cs =>
        by_cases h1 : a.toNat < b.toNat
        · by_cases h2 : b.toNat < c.toNat
          · have : a.toNat < c.toNat := Nat.lt_trans h1 h2
            simp [charListLe, this]
          · by_cases h3 : c.toNat < b.toNat
            · simp [charListLe, h2, h3] at hbc
            · have hbceq : b.toNat = c.toNat := Nat.le_antisymm
                (Nat.le_of_not_lt h3) (Nat.le_of_not_lt h2)
              have : a.toNat < c.toNat := hbceq ▸ h1
              simp [charListLe, this]
        · by_cases h4 : b.toNat < a.toNat
          · simp [charListLe, h1, h4] at hab
          · have habeq : a.toNat = b.toNat := Nat.le_antisymm
              (Nat.le_of_not_lt h4) (Nat.le_of_not_lt h1)
            have hab' : charListLe as bs = true := by
              simpa [charListLe, h1, h4] using hab
            by_cases h2 : b.toNat < c.toNat
            · have : a.toNat < c.toNat := habeq ▸ h2
              simp [charListLe, this]
            · by_cases h3 : c.toNat < b.toNat
              · simp [charListLe, h2, h3] at hbc
              · have hbc' : charListLe bs cs = true := by
                  simpa [charListLe, h2, h3] using hbc
                have h2' : ¬ a.toNat < c.toNat := by omega
                have h3' : ¬ c.toNat < a.toNat := by omega
                simp [charListLe, h2', h3', ih bs cs hab' hbc']

theorem pyLe_total (a b : String) : pyLe a b = true ∨ pyLe b a = true :=
  charListLe_total a.data b.data

theorem pyLe_trans (a b c : String) :
    pyLe a b = true → pyLe b c = true → pyLe a c = true :=
  charListLe_trans a.data b.data c.data

theorem pairwise_insertStr : ∀ (l : List String) (a : String),
    l.Pairwise (fun x y => pyLe x y = true) →
    (insertStr a l).Pairwise (fun x y => pyLe x y = true) := by
  intro l a
  induction l with
  | nil => intro _; simp [insertStr]
  | cons b bs ih =>
    intro hp
    rw [List.pairwise_cons] at hp
    obtain ⟨hb, hbs⟩ := hp
    by_cases h : pyLe a b = true
    · simp only [insertStr, h, if_true]
      rw [List.pairwise_cons]
      refine ⟨?_, by rw [List.pairwise_cons]; exact ⟨hb, hbs⟩⟩
      intro x hx
      rcases List.mem_cons.mp hx with rfl | hx
      · exact h
      · exact pyLe_trans a b x h (hb x hx)
    · simp only [insertStr, h, Bool.false_eq_true, if_false]
      rw [List.pairwise_cons]
      constructor
      · intro x hx
        rcases (mem_insertStr bs a x).mp hx with rfl | hx
        · rcases pyLe_total x b with h2 | h2
          · exact absurd h2 h
          · exact h2
        · exact hb x hx
      · exact ih hbs

theorem pairwise_pySort : ∀ l : List String,
    (pySort l).Pairwise (fun x y => pyLe x y = true) := by
  intro l
  induction l with
  | nil => simp [pySort]
  | cons a as ih => exact pairwise_insertStr (pySort as) a ih

/-! ## Matcher lemmas -/

theorem mrun_seq (a b : Regex) (s : List Char)
    (k : List Char → List String → Option (List String)) (caps : List String) :
    mrun (.seq a b) s k caps = mrun a s (fun s2 c2 => mrun b s2 k c2) caps := rfl

theorem mrun_eol (s : List Char)
    (k : List Char → List String → Option (List String)) (caps : List String) :
    mrun .eol s k caps = if s.isEmpty then k s caps else none := rfl

theorem greedyFrom_isSome :
    ∀ (n : Nat) (k : List Char → List String → Option (List String))
      (caps : List String) (s : List Char),
    (greedyFrom k caps s n).isSome = true
      ↔ ∃ j, 1 ≤ j ∧ j ≤ n ∧ (k (s.drop j) caps).isSome = true := by
  intro n
  induction n with
  | zero =>
    intro k caps s
    simp only [greedyFrom, Option.isSome_none, Bool.false_eq_true, false_iff]
    rintro ⟨j, h1, h2, _⟩
    omega
  | succ n ih =>
    intro k caps s
    simp only [greedyFrom]
    cases h : k (s.drop (n + 1)) caps with
    | some r =>
      simp only [Option.isSome_some, true_iff]
      exact ⟨n + 1, by omega, by omega, by simp [h]⟩
    | none =>
      rw [ih]
      constructor
      · rintro ⟨j, h1, h2, h3⟩
        exact ⟨j, h1, by omega, h3⟩
      · rintro ⟨j, h1, h2, h3⟩
        refine ⟨j, h1, ?_, h3⟩
        rcases Nat.lt_or_ge j (n + 1) with hj | hj
        · omega
        · have : j = n + 1 := by omega
          subst this
          rw [h] at h3
          simp at h3

theorem takeWhile_length_le : ∀ (p : Char → Bool) (l : List Char),
    (l.takeWhile p).length ≤ l.length := by
  intro p l
  induction l with
  | nil => simp
  | cons c cs ih =>
    by_cases h : p c
    · simpa [List.takeWhile, h] using ih
    · simp [List.takeWhile, h]

theorem takeWhile_length_append : ∀ (p : Char → Bool) (l ext : List Char),
    (l.takeWhile p).length ≤ ((l ++ ext).takeWhile p).length := by
  intro p l ext
  induction l with
  | nil => simp
  | cons c cs ih =>
    by_cases h : p c
    · simpa [List.takeWhile, h] using ih
    · simp [List.takeWhile, h]

theorem consumed_append (cs ext rest : List Char) :
    consumed (cs ++ ext) (rest ++ ext) = consumed cs rest := by
  unfold consumed
  rw [List.length_append, List.length_append]
  have h1 : cs.length + ext.length - (rest.length + ext.length)
      = cs.length - rest.length := by omega
  rw [h1, List.take_append_of_le_length (Nat.sub_le _ _)]

theorem mrun_append_isSome :
    ∀ r : Regex, r.eolFree = true →
    ∀ (cs ext : List Char)
      (k k' : List Char → List String → Option (List String)) (caps : List String),
    (∀ rest c2, (k rest c2).isSome = true → (k' (rest ++ ext) c2).isSome = true) →
    (mrun r cs k caps).isSome = true → (mrun r (cs ++ ext) k' caps).isSome = true := by
  intro r
  induction r with
  | emp =>
    intro _ cs ext k k' caps hk h
    exact hk cs caps h
  | cl c =>
    intro _ cs ext k k' caps hk h
    cases cs with
    | nil => simp [mrun] at h
    | cons ch rest =>
      by_cases ht : c.test ch
      · rw [List.cons_append]
        simp only [mrun, ht, if_true] at h ⊢
        exact hk rest caps h
      · simp [mrun, ht] at h
  | seq a b iha ihb =>
    intro hfree cs ext k k' caps hk h
    rw [Regex.eolFree, Bool.and_eq_true] at hfree
    rw [mrun_seq] at h ⊢
    refine iha hfree.1 cs ext _ _ caps ?_ h
    intro rest c2 h2
    exact ihb hfree.2 rest ext k k' c2 hk h2
  | plus c =>
    intro _ cs ext k k' caps hk h
    simp only [mrun] at h ⊢
    rcases (greedyFrom_isSome _ _ _ _).mp h with ⟨j, h1, h2, h3⟩
    have hjcs : j ≤ cs.length := Nat.le_trans h2 (takeWhile_length_le _ _)
    refine (greedyFrom_isSome _ _ _ _).mpr ⟨j, h1, ?_, ?_⟩
    · exact Nat.le_trans h2 (takeWhile_length_append _ _ _)
    · rw [List.drop_append_of_le_length hjcs]
      exact hk (cs.drop j) caps h3
  | group a iha =>
    intro hfree cs ext k k' caps hk h
    simp only [mrun] at h ⊢
    refine iha hfree cs ext _ _ caps ?_ h
    intro rest c2 h2
    have := hk rest (c2 ++ [consumed cs rest]) h2
    rwa [consumed_append cs ext rest]
  | eol =>
    intro hfree
    simp [Regex.eolFree] at hfree

/-- `(s ++ t).data` unfolds to the concatenation of the data lists. -/
theorem string_data_append (s t : String) : (s ++ t).data = s.data ++ t.data :=
  String.data_append s t

theorem rmatch_append_isSome (p : Regex) (s t : String) (h : p.eolFree = true)
    (hm : (rmatch p s).isSome = true) : (rmatch p (s ++ t)).isSome = true := by
  unfold rmatch at hm ⊢
  rw [string_data_append]
  exact mrun_append_isSome p h s.data t.data _ _ [] (fun _ _ h2 => h2) hm

theorem variantPattern_full (p : Regex) (label f : String) :
    rmatch (variantPattern p label) f
      = rmatchFull (.seq p (.seq (.cl .any) (Regex.lits label))) f := by
  unfold rmatch rmatchFull variantPattern
  rw [mrun_seq, mrun_seq]
  congr 1

/-! ## Multi-variant association lemmas -/

theorem variantEntries_sysId (sysPat : Regex) (listing : List String)
    (lab : String) (e : Entry) (he : e ∈ variantEntries sysPat listing lab) :
    e.sysId = lab := by
  simp only [variantEntries, List.mem_filterMap] at he
  obtain ⟨g, _, hsome⟩ := he
  rcases Option.map_eq_some'.mp hsome with ⟨caps, _, he2⟩
  rw [← he2]

theorem peersAt_ok : ∀ (lists : List (List Entry)) (i : Nat) (ps : List Entry),
    peersAt lists i = Except.ok ps →
    ps = lists.map (fun lst => lst.getD i default) ∧ ∀ lst ∈ lists, i < lst.length := by
  intro lists
  induction lists with
  | nil =>
    intro i ps h
    simp only [peersAt, Except.ok.injEq] at h
    simp [← h]
  | cons lst rest ih =>
    intro i ps h
    simp only [peersAt] at h
    cases hg : lst.get? i with
    | none => rw [hg] at h; exact absurd h (by simp)
    | some e =>
      rw [hg] at h
      cases hr : peersAt rest i with
      | error err => rw [hr] at h; exact absurd h (by simp)
      | ok ps2 =>
        rw [hr] at h
        simp only [Except.ok.injEq] at h
        obtain ⟨hps2, hbound⟩ := ih i ps2 hr
        have hi : i < lst.length := (List.get?_eq_some.mp hg).1
        have hgetD : lst.getD i default = e := by
          have h2 : lst[i]? = some e := by
            simpa [List.get?_eq_getElem?] using hg
          simp [List.getD, h2]
        constructor
        · rw [← h, List.map_cons, hgetD, hps2]
        · intro l2 hl2
          rcases List.mem_cons.mp hl2 with rfl | hl2
          · exact hi
          · exact hbound l2 hl2

theorem zipTasks_ok :
    ∀ (es : List Entry) (lists : List (List Entry)) (mL : List String)
      (mP : PRegex) (i : Nat) (tasks : List SysModPair),
    zipTasks lists mL mP i es = Except.ok tasks →
    tasks.length = es.length ∧
    ∀ j, j < tasks.length →
      (tasks.getD j ([], [])).1 = lists.map (fun lst => lst.getD (i + j) default) ∧
      (∀ lst ∈ lists, i + j < lst.length) ∧
      getModelFilenamesForId (es.getD j default).id mL mP
        = Except.ok (tasks.getD j ([], [])).2 := by
  intro es
  induction es with
  | nil =>
    intro lists mL mP i tasks h
    simp only [zipTasks, Except.ok.injEq] at h
    subst h
    exact ⟨rfl, fun j hj => by simp at hj⟩
  | cons e es ih =>
    intro lists mL mP i tasks h
    simp only [zipTasks] at h
    cases hm : getModelFilenamesForId e.id mL mP with
    | error err => rw [hm] at h; exact absurd h (by simp)
    | ok models =>
      rw [hm] at h
      cases hp : peersAt lists i with
      | error err => rw [hp] at h; exact absurd h (by simp)
      | ok peers =>
        rw [hp] at h
        cases hz : zipTasks lists mL mP (i + 1) es with
        | error err => rw [hz] at h; exact absurd h (by simp)
        | ok rest =>
          rw [hz] at h
          simp only [Except.ok.injEq] at h
          subst h
          obtain ⟨hlen, hrest⟩ := ih lists mL mP (i + 1) rest hz
          obtain ⟨hps, hbound⟩ := peersAt_ok lists i peers hp
          refine ⟨by simp [hlen], ?_⟩
          intro j hj
          cases j with
          | zero =>
            refine ⟨by simpa [Nat.add_zero] using hps,
              by simpa [Nat.add_zero] using hbound, by simpa using hm⟩
          | succ j =>
            have hj' : j < rest.length := by simpa using hj
            obtain ⟨h1, h2, h3⟩ := hrest j hj'
            have hadd : i + 1 + j = i + (j + 1) := by omega
            refine ⟨?_, ?_, ?_⟩
            · simpa [hadd] using h1
            · intro lst hl
              have := h2 lst hl
              omega
            · simpa using h3

theorem matchCandidates_pairwise_aux (pat : Regex) :
    ∀ l : List String, l.Pairwise (fun a b => pyLe a b = true) →
    (l.filterMap (fun f => (rmatch pat f).map (fun caps => (caps.getD 0 "", f)))).Pairwise
      (fun a b => pyLe a.2 b.2 = true) := by
  intro l
  induction l with
  | nil => intro _; simp
  | cons a as ih =>
    intro hp
    rw [List.pairwise_cons] at hp
    obtain ⟨ha, has⟩ := hp
    rw [List.filterMap_cons]
    cases hm : (rmatch pat a).map (fun caps => (caps.getD 0 "", a)) with
    | none => exact ih has
    | some b =>
      rw [List.pairwise_cons]
      refine ⟨?_, ih has⟩
      intro y hy
      rcases List.mem_filterMap.mp hy with ⟨x, hx, hxy⟩
      rcases Option.map_eq_some'.mp hxy with ⟨caps2, _, hy2⟩
      rcases Option.map_eq_some'.mp hm with ⟨caps1, _, hb2⟩
      rw [← hy2, ← hb2]
      exact ha x hx

theorem matchCandidates_mem (listing : List String) (pat : Regex) (id f : String) :
    (id, f) ∈ matchCandidates listing pat
      ↔ f ∈ listing ∧ ∃ caps, rmatch pat f = some caps ∧ id = caps.getD 0 "" := by
  simp only [matchCandidates, List.mem_filterMap]
  constructor
  · rintro ⟨g, hg, hsome⟩
    rcases Option.map_eq_some'.mp hsome with ⟨caps, hc, he⟩
    have hgf : g = f := congrArg Prod.snd he
    have hid : caps.getD 0 "" = id := congrArg Prod.fst he
    subst hgf
    exact ⟨(mem_pySort listing g).mp hg, caps, hc, hid.symm⟩
  · rintro ⟨hmem, caps, hc, hid⟩
    refine ⟨f, (mem_pySort listing f).mpr hmem, ?_⟩
    rw [hc]
    simp [hid]

/-! ## Claim theorems -/

/-- C1: in multi-variant mode, for a non-empty variant-label list and a
successful resolution, `ProduceSysModPair` emits one task per position of
the first variant's (sorted) candidate list; the peer set of the task at
position `j` is the position-`j` entry of every variant's sorted candidate
list, in label order (each entry tagged with its own variant label), and
the task's reference set is resolved from the identifier of the *first*
variant's candidate at position `j`. -/
theorem produce_sys_mod_positional_zip :
    ∀ (systemListing modelListing : List String) (l0 : String) (ls : List String)
      (modelPat : PRegex) (sysPat : Regex) (tasks : List SysModPair),
    ProduceSysModPair systemListing modelListing (l0 :: ls) modelPat sysPat
      = Except.ok tasks →
    tasks.length = (variantEntries sysPat systemListing l0).length
    ∧ (∀ lab ∈ (l0 :: ls), ∀ e ∈ variantEntries sysPat systemListing lab,
        e.sysId = lab)
    ∧ ∀ j, j < tasks.length →
        (tasks.getD j ([], [])).1
          = ((l0 :: ls).map (variantEntries sysPat systemListing)).map
              (fun lst => lst.getD j default)
        ∧ (∀ lst ∈ (l0 :: ls).map (variantEntries sysPat systemListing),
            j < lst.length)
        ∧ getModelFilenamesForId
            ((variantEntries sysPat systemListing l0).getD j default).id
            modelListing modelPat
            = Except.ok (tasks.getD j ([], [])).2 := by
  intro systemListing modelListing l0 ls modelPat sysPat tasks h
  simp only [ProduceSysModPair, List.map_cons] at h
  obtain ⟨hlen, hrest⟩ := zipTasks_ok (variantEntries sysPat systemListing l0)
    (variantEntries sysPat systemListing l0 :: ls.map (variantEntries sysPat systemListing))
    modelListing modelPat 0 tasks h
  refine ⟨hlen, ?_, ?_⟩
  · intro lab _ e he
    exact variantEntries_sysId sysPat systemListing lab e he
  · intro j hj
    obtain ⟨h1, h2, h3⟩ := hrest j hj
    refine ⟨?_, ?_, h3⟩
    · simpa [Nat.zero_add, List.map_cons] using h1
    · intro lst hl
      have := h2 lst (by simpa [List.map_cons] using hl)
      omega

/-- C1 witness: two variants `01`, `02` over the listing
`[s1.02, s1.01]` produce a single task pairing the position-0 entries of
both variant lists with the references of identifier `1`. -/
theorem produce_sys_mod_positional_zip_witness :
    (([([⟨"1", "01", "s1.01"⟩, ⟨"1", "02", "s1.02"⟩], ["m1"])] : List SysModPair).getD 0
        ([], [])).1
      = ((["01", "02"]).map (variantEntries sysPatEx ["s1.02", "s1.01"])).map
          (fun lst => lst.getD 0 default) :=
  ((produce_sys_mod_positional_zip ["s1.02", "s1.01"] ["m1"] "01" ["02"]
    modelPatEx sysPatEx
    [([⟨"1", "01", "s1.01"⟩, ⟨"1", "02", "s1.02"⟩], ["m1"])] rfl).2.2 0
    (by decide)).1

/-- C5: the Pattern Matcher of `write_config_static` returns its
`(identifier, filename)` pairs sorted by filename; a pair is returned
exactly when the filename is in the directory listing and `re.match`
accepts it, the identifier being the first capturing group; non-matching
filenames are silently skipped (they simply do not appear); and matching
is a prefix match — for an anchor-free pattern, appending trailing
characters to an accepted filename keeps it accepted. -/
theorem match_candidates_sorted_prefix :
    (∀ (listing : List String) (pat : Regex),
        (matchCandidates listing pat).Pairwise (fun a b => pyLe a.2 b.2 = true))
    ∧ (∀ (listing : List String) (pat : Regex) (id f : String),
        (id, f) ∈ matchCandidates listing pat
          ↔ f ∈ listing ∧ ∃ caps, rmatch pat f = some caps ∧ id = caps.getD 0 "")
    ∧ (∀ (p : Regex) (s t : String), p.eolFree = true →
        (rmatch p s).isSome = true → (rmatch p (s ++ t)).isSome = true) := by
  refine ⟨?_, matchCandidates_mem, rmatch_append_isSome⟩
  intro listing pat
  exact matchCandidates_pairwise_aux pat (pySort listing) (pairwise_pySort listing)

/-- C5 witness: the anchor-free example pattern still accepts `s1`
after arbitrary trailing characters are appended. -/
theorem match_candidates_sorted_prefix_witness :
    (rmatch sysPatEx ("s1" ++ "xy")).isSome = true :=
  match_candidates_sorted_prefix.2.2 sysPatEx "s1" "xy" rfl rfl

/-- C9: in multi-variant mode a filename is accepted for variant label
`L` exactly when the regex built as the base pattern followed by the
single-character wildcard, the label and the end anchor matches the
filename from its beginning to its end: acceptance coincides with a
full-string match of base-wildcard-label, so, unlike single-variant
matching, no trailing characters after the variant label are
permitted. -/
theorem multi_variant_anchored :
    ∀ (p : Regex) (label : String) (listing : List String) (f : String),
      ((rmatch (variantPattern p label) f).isSome
        = (rmatchFull (.seq p (.seq (.cl .any) (Regex.lits label))) f).isSome)
      ∧ (f ∈ (variantEntries p listing label).map Entry.fname
          ↔ f ∈ listing
            ∧ (rmatchFull (.seq p (.seq (.cl .any) (Regex.lits label))) f).isSome
                = true) := by
  intro p label listing f
  constructor
  · rw [variantPattern_full]
  · constructor
    · intro hmem
      rcases List.mem_map.mp hmem with ⟨e, he, hf⟩
      simp only [variantEntries, List.mem_filterMap] at he
      obtain ⟨g, hg, hsome⟩ := he
      rcases Option.map_eq_some'.mp hsome with ⟨caps, hc, he2⟩
      have hgf : g = f := by rw [← hf, ← he2]
      subst hgf
      refine ⟨(mem_pySort listing g).mp hg, ?_⟩
      rw [← variantPattern_full, hc]
      rfl
    · rintro ⟨hmem, hsome⟩
      have hr : (rmatch (variantPattern p label) f).isSome = true := by
        rw [variantPattern_full]
        exact hsome
      obtain ⟨caps, hc⟩ := Option.isSome_iff_exists.mp hr
      refine List.mem_map.mpr ⟨⟨caps.getD 0 "", label, f⟩, ?_, rfl⟩
      simp only [variantEntries, List.mem_filterMap]
      exact ⟨f, (mem_pySort listing f).mpr hmem, by rw [hc]; rfl⟩

/-- C2: an identifier whose substituted reference pattern matches no
filename of the model directory makes `__get_model_filenames_for_id`
raise an exception carrying the identifier and the configured pattern
(the `MissingReferencesError` of the specification); the exception
propagates through `ProduceSysModPair` and aborts `write_config_staticA`
before any configuration document is produced. -/
theorem missing_references_fail_fast :
    (∀ (id : String) (modelListing : List String) (modelPat : PRegex),
        modelListing.filter (fun f => (rmatch (modelPat.subst id) f).isSome) = [] →
        getModelFilenamesForId id modelListing modelPat
          = Except.error (.missingReferences id modelPat))
    ∧ (∀ (lists : List (List Entry)) (mL : List String) (mP : PRegex) (i : Nat)
          (e : Entry) (es : List Entry) (err : RougeError),
        getModelFilenamesForId e.id mL mP = Except.error err →
        zipTasks lists mL mP i (e :: es) = Except.error err)
    ∧ (∀ (sysDir : String) (systemListing : List String) (sysPat : Regex)
          (modDir : String) (modelListing : List String) (modelPat : PRegex)
          (idset : List String) (err : RougeError),
        ProduceSysModPair systemListing modelListing idset modelPat sysPat
          = Except.error err →
        writeConfigStaticA sysDir systemListing sysPat modDir modelListing modelPat idset
          = Except.error err) := by
  refine ⟨?_, ?_, ?_⟩
  · intro id modelListing modelPat h
    simp only [getModelFilenamesForId, h]
    rfl
  · intro lists mL mP i e es err h
    simp only [zipTasks, h]
  · intro sysDir systemListing sysPat modDir modelListing modelPat idset err h
    simp only [writeConfigStaticA, h]

/-- C2 witness: the identifier `9` matches nothing in a model directory
holding only `foo`. -/
theorem missing_references_fail_fast_witness :
    getModelFilenamesForId "9" ["foo"] modelPatEx
      = Except.error (.missingReferences "9" modelPatEx) :=
  missing_references_fail_fast.1 "9" ["foo"] modelPatEx (by decide)

/-- C3 counterexample: on the `write_config_staticA` path, an empty
candidate directory (so zero files match the candidate pattern) does not
raise — a configuration document with zero tasks is produced. -/
theorem staticA_empty_candidates_writes_document :
    writeConfigStaticA "sd" [] sysPatEx "md" ["m"] modelPatEx ["01"]
      = Except.ok "<ROUGE-EVAL version=\"1.55\"></ROUGE-EVAL>" := rfl

/-- C3 amended: only `write_config_static` checks for an empty candidate
set — when zero files match the candidate pattern it raises the
`NoCandidatesError` (carrying pattern and directory) before any document
is written; `write_config_staticA` has no such check and, when the first
variant's candidate list is empty, writes an empty-task document
instead. -/
theorem no_candidates_check_static_path_only :
    (∀ (sysDir : String) (listing : List String) (sysPat : Regex)
        (modDir : String) (mListing : List String) (mPat : PRegex) (sysId : String),
      matchCandidates listing sysPat = [] →
      writeConfigStatic sysDir listing sysPat modDir mListing mPat sysId
        = Except.error (.noCandidates sysPat sysDir))
    ∧ (∀ (sysDir : String) (listing : List String) (sysPat : Regex)
          (modDir : String) (mListing : List String) (mPat : PRegex)
          (l0 : String) (ls : List String),
        variantEntries sysPat listing l0 = [] →
        writeConfigStaticA sysDir listing sysPat modDir mListing mPat (l0 :: ls)
          = Except.ok "<ROUGE-EVAL version=\"1.55\"></ROUGE-EVAL>") := by
  constructor
  · intro sysDir listing sysPat modDir mListing mPat sysId h
    have hnone : ∀ f ∈ pySort listing, rmatch sysPat f = none := by
      intro f hf
      have := (List.filterMap_eq_nil_iff.mp h) f hf
      exact Option.map_eq_none'.mp this
    have hb := buildTuples_eq_nil sysPat mListing mPat (pySort listing) hnone
    simp only [writeConfigStatic, hb, List.isEmpty_nil, if_true]
  · intro sysDir listing sysPat modDir mListing mPat l0 ls h
    simp only [writeConfigStaticA, ProduceSysModPair, List.map, h, zipTasks,
      renderConfigA, renderTasksA]
    rfl

/-- C3 amended witness: a listing whose single file does not match the
candidate pattern. -/
theorem no_candidates_check_witness :
    writeConfigStatic "sd" ["zzz"] sysPatEx "md" [] modelPatEx "1"
      = Except.error (.noCandidates sysPatEx "sd") :=
  no_candidates_check_static_path_only.1 "sd" ["zzz"] sysPatEx "md" [] modelPatEx "1"
    (by decide)

/-- C4 counterexample: with a model directory listed as `[mb1, ma1]`
(both matching the substituted pattern `m.1`), the resolver returns the
filenames in listing order, which is not lexicographically sorted. -/
theorem resolver_output_not_sorted :
    getModelFilenamesForId "1" ["mb1", "ma1"] modelPatWild
      = Except.ok ["mb1", "ma1"]
    ∧ pyLe "mb1" "ma1" = false :=
  ⟨rfl, rfl⟩

/-- C4 amended: the Placeholder Resolver substitutes the identifier for
every occurrence of the placeholder, prefix-matches the compiled result
against each filename of the directory listing, and returns the matches
in directory-listing order (not sorted; only the single-variant caller
`write_config_static` sorts the result afterwards). -/
theorem resolver_listing_order :
    (∀ (id : String) (modelListing : List String) (modelPat : PRegex),
        modelListing.filter (fun f => (rmatch (modelPat.subst id) f).isSome) ≠ [] →
        getModelFilenamesForId id modelListing modelPat
          = Except.ok (modelListing.filter
              (fun f => (rmatch (modelPat.subst id) f).isSome)))
    ∧ (∀ (a b : PRegex) (id : String),
        (PRegex.seq a b).subst id = Regex.seq (a.subst id) (b.subst id))
    ∧ (∀ id : String, PRegex.hole.subst id = Regex.lits id) := by
  refine ⟨?_, fun a b id => rfl, fun id => rfl⟩
  intro id modelListing modelPat h
  simp only [getModelFilenamesForId]
  rw [if_neg]
  simpa [List.isEmpty_iff] using h

/-- C4 amended witness: the unsorted pair of matches from the
counterexample input is returned exactly as listed. -/
theorem resolver_listing_order_witness :
    getModelFilenamesForId "1" ["mb1", "ma1"] modelPatWild
      = Except.ok (["mb1", "ma1"].filter
          (fun f => (rmatch (modelPatWild.subst "1") f).isSome)) :=
  resolver_listing_order.1 "1" ["mb1", "ma1"] modelPatWild (by decide)

/-- C6: `write_config_staticA` numbers tasks 1, 2, … in input-sequence
order, and within a task the model entries appear one per reference
filename in input order, the ID attribute of position `i` being the
letter `chr(65 + i)` (`A`, `B`, …). -/
theorem document_task_and_reference_numbering :
    (∀ (systemId : List String) (sysDir modDir : String) (sysMod : List SysModPair),
        renderConfigA systemId sysDir modDir sysMod
          = "<ROUGE-EVAL version=\"1.55\">"
            ++ strConcat ((enumFrom 1 sysMod).map
                (fun p => getEvalStringA p.1 systemId sysDir p.2.1 modDir p.2.2))
            ++ "</ROUGE-EVAL>")
    ∧ (∀ names : List String, (modelElems names).length = names.length)
    ∧ (∀ (names : List String) (i : Nat), i < names.length →
        (modelElems names).getD i ""
          = "<M ID=\"" ++ (Char.ofNat (65 + i)).toString ++ "\">"
            ++ names.getD i "" ++ "</M>") := by
  refine ⟨?_, ?_, ?_⟩
  · intro systemId sysDir modDir sysMod
    simp only [renderConfigA, renderTasksA_eq_join]
  · intro names
    simp [modelElems, enumFrom_length]
  · intro names i h
    have := modelElems_getD_aux names 0 i h
    simpa [modelElems] using this

/-- C6 witness: the second reference of a two-reference task gets the
letter `B`. -/
theorem document_numbering_witness :
    (modelElems ["ra", "rb"]).getD 1 ""
      = "<M ID=\"" ++ (Char.ofNat (65 + 1)).toString ++ "\">"
        ++ (["ra", "rb"].getD 1 "") ++ "</M>" :=
  document_task_and_reference_numbering.2.2 ["ra", "rb"] 1 (by decide)

/-- C7: the argument vector of `evaluate` is the interpreter, the
executable path, then the whitespace-split user arguments (constructor
arguments first, then per-call arguments) or the default argument set,
and in every case `-m` followed by the configuration document path is
appended last. -/
theorem evaluate_command_shape (perl bin : String) (selfArgs rougeArgs : Option String)
    (dataDir cfg : String) :
    evaluateCommand perl bin selfArgs rougeArgs dataDir cfg
      = [perl, bin]
        ++ (if strTruthy selfArgs then pySplit (selfArgs.getD "")
            else if strTruthy rougeArgs then pySplit (rougeArgs.getD "")
            else defaultOptions dataDir)
        ++ ["-m", cfg]
    ∧ defaultOptions dataDir
      = ["-e", dataDir, "-c", "95", "-U", "-r", "1000", "-n", "4", "-a"] := by
  constructor
  · simp [evaluateCommand, getOptions, addConfigOption]
  · rfl

/-- C8 counterexample: a line of the report shape whose measure is
`Average_X` is neither ignored nor mapped — `output_to_dict` raises a
`KeyError`, so the claim's "non-matching lines are ignored … without
error" fails on the code. -/
theorem parser_keyerror_line :
    outputToDict "1 ROUGE-1 Average_X: 0.1 (95%-conf.int. 0.2 - 0.3)"
      = Except.error .keyError := rfl

/-- C8 amended: a line matching the report regex whose measure is one of
`Average_R`/`Average_P`/`Average_F` contributes exactly the three entries
`{metric}_{measure}`, `…_cb`, `…_ce` (metric lowercased, hyphens to
underscores); a line matching with any other measure raises a `KeyError`;
lines not matching the regex are ignored and zero matches yield an empty
mapping without error; on the claim's example line the parser returns
exactly the three stated entries. -/
theorem parser_entry_mapping :
    (∀ (line : String) (caps : List String) (m : String),
        rmatch outputPattern line = some caps →
        measureName (caps.getD 2 "") = Except.ok m →
        lineEntries line = Except.ok
          [(dashToUnderscore (pyLower (caps.getD 1 "")) ++ "_" ++ m, caps.getD 3 ""),
           (dashToUnderscore (pyLower (caps.getD 1 "")) ++ "_" ++ m ++ "_cb",
             caps.getD 4 ""),
           (dashToUnderscore (pyLower (caps.getD 1 "")) ++ "_" ++ m ++ "_ce",
             caps.getD 5 "")])
    ∧ (∀ line : String, rmatch outputPattern line = none →
        lineEntries line = Except.ok [])
    ∧ (∀ lines : List String, (∀ l ∈ lines, rmatch outputPattern l = none) →
        outputLines lines = Except.ok [])
    ∧ outputToDict "1 ROUGE-1 Average_F: 0.95652 (95%-conf.int. 0.94000 - 0.97000)"
        = Except.ok [("rouge_1_f_score", "0.95652"), ("rouge_1_f_score_cb", "0.94000"),
                     ("rouge_1_f_score_ce", "0.97000")] := by
  refine ⟨?_, ?_, ?_, rfl⟩
  · intro line caps m h1 h2
    simp only [lineEntries, h1, h2]
  · intro line h
    simp only [lineEntries, h]
  · intro lines h
    induction lines with
    | nil => rfl
    | cons l ls ih =>
      have hl : rmatch outputPattern l = none := h l (by simp)
      have hls : ∀ g ∈ ls, rmatch outputPattern g = none := fun g hg => h g (by simp [hg])
      simp only [outputLines, lineEntries, hl, ih hls, List.nil_append]

/-- C8 amended witness: the claim's example line, parsed through the
per-line mapping. -/
theorem parser_entry_mapping_witness :
    lineEntries "1 ROUGE-1 Average_F: 0.95652 (95%-conf.int. 0.94000 - 0.97000)"
      = Except.ok
        [("rouge_1_f_score", "0.95652"), ("rouge_1_f_score_cb", "0.94000"),
         ("rouge_1_f_score_ce", "0.97000")] := by
  exact parser_entry_mapping.1 _
    ["1", "ROUGE-1", "Average_F", "0.95652", "0.94000", "0.97000"] "f_score"
    rfl rfl

/-- C10: once the constructor received a non-empty `rouge_args` (cleaned
of one pair of enclosing quotes), every option computation splits those
stored arguments on whitespace (plus the `-m <config>` pair), and the
per-call `rouge_args` of `evaluate`/`__get_options` is ignored. -/
theorem constructor_args_precedence :
    (∀ (s : String) (rougeArgs : Option String) (dataDir cfg : String),
        strTruthy (cleanRougeArgs (some s)) = true →
        getOptions (cleanRougeArgs (some s)) rougeArgs dataDir cfg
          = pySplit ((cleanRougeArgs (some s)).getD "") ++ ["-m", cfg])
    ∧ (∀ (selfArgs ra ra' : Option String) (dataDir cfg : String),
        strTruthy selfArgs = true →
        getOptions selfArgs ra dataDir cfg = getOptions selfArgs ra' dataDir cfg) := by
  constructor
  · intro s rougeArgs dataDir cfg h
    simp [getOptions, addConfigOption, h]
  · intro selfArgs ra ra' dataDir cfg h
    simp [getOptions, h]

/-- C10 witness: constructor arguments `a b` beat the per-call value
`zzz`. -/
theorem constructor_args_precedence_witness :
    getOptions (cleanRougeArgs (some "a b")) (some "zzz") "dd" "cfg"
      = pySplit ((cleanRougeArgs (some "a b")).getD "") ++ ["-m", "cfg"] :=
  constructor_args_precedence.1 "a b" (some "zzz") "dd" "cfg" (by decide)

end MyRouge155
